import Mathlib

/-!
# Verification of the static-profile exporter core

Shallow embedding of `src/lib/StaticProfileExporter.cpp`:

* `convertBFIToCounts` mirrors the C++ function of the same name: it turns the
  per-basic-block `BlockFrequencyInfo` frequencies of one function into a
  vector of absolute execution counts, either matching an instrumented counter
  layout (when a `__profd_` counter-count hint is present) or emitting one
  count per block.  All frequencies are `uint64_t` values, so multiplication
  wraps modulo `2^64`; this is modelled explicitly.
* `computeFunctionHash` / `tryExtractCoverageHash` mirror the hash-resolution
  helpers.  The named-global lookup and the MD5 name hash are external
  collaborators and are abstracted as an `Option Constant` argument and a
  `String → Nat` argument respectively; the struct-field extraction logic is
  modelled faithfully.
* `runStep` / `runExport` mirror the per-function body of
  `StaticProfileExporterPass::run`: skip declarations, synthesize counts
  (incrementing the skipped tally on failure), and submit the record to the
  `InstrProfWriter` sink, whose per-record verdict is modelled by a `submitOk`
  oracle on each function (the error callback increments the skipped tally;
  the processed tally is incremented unconditionally afterwards, exactly as in
  the source).
-/

namespace StaticProfileExporter

/-- `uint64_t` wraps modulo `2^64`. -/
def UINT64_MOD : Nat := 2 ^ 64

/-- `static constexpr uint64_t DefaultEntryCount = 100;` — the baseline entry
count used to scale relative frequencies (the spec's `BASE_SCALE`). -/
def DefaultEntryCount : Nat := 100

/-- `(DefaultEntryCount * BBFreq.getFrequency()) / EntryFreq.getFrequency()`
computed in `uint64_t`: the product wraps modulo `2^64` before the floor
division. -/
def scaledCount (entryFreq freq : Nat) : Nat :=
  DefaultEntryCount * freq % UINT64_MOD / entryFreq

/-- Insert a value into a descending-sorted list, keeping it descending. -/
def insertDesc (x : Nat) : List Nat → List Nat
  | [] => [x]
  | y :: ys => if y < x then x :: y :: ys else y :: insertDesc x ys

/-- `std::sort(BlockFreqs.rbegin(), BlockFreqs.rend())`: sort the scaled
block frequencies in descending numeric order.  On a list of numbers any
correct descending sort produces the same value sequence, so insertion sort
is an exact model. -/
def sortDesc : List Nat → List Nat
  | [] => []
  | x :: xs => insertDesc x (sortDesc xs)

/-- Body of the counter-assignment loop for slot `i ≥ 1` of the instrumented
path: `Counts.push_back(i < BlockFreqs.size() ? BlockFreqs[i]
: DefaultEntryCount / (i + 1))`. -/
def counterSlot (sorted : List Nat) (i : Nat) : Nat :=
  if i < sorted.length then sorted.getD i 0 else DefaultEntryCount / (i + 1)

/-- `convertBFIToCounts`.  A function is represented by the list of its
blocks' BFI frequencies in declaration order; in LLVM the entry block is the
first block of the function, so `EntryFreq` is the head of the list.
`instrCounterCount` is the result of `tryExtractCounterCount` (the
`__profd_` hint).  Returns `none` where the C++ returns `false` (zero entry
frequency, or an empty resulting vector). -/
def convertBFIToCounts (instrCounterCount : Option Nat) (blocks : List Nat) :
    Option (List Nat) :=
  let entryFreq := blocks.headD 0
  if entryFreq = 0 then none
  else
    let counts :=
      match instrCounterCount with
      | some n =>
          -- instrumented path: Counter 0 always gets the entry count, then
          -- `for (unsigned i = 1; i < *InstrCounterCount; ++i)`
          let sorted := sortDesc (blocks.map (scaledCount entryFreq))
          DefaultEntryCount :: (List.range' 1 (n - 1)).map (counterSlot sorted)
      | none =>
          -- uninstrumented path: one counter per basic block
          blocks.map (scaledCount entryFreq)
    if counts.isEmpty then none else some counts

/-- LLVM IR constants, as far as the coverage-record extraction inspects
them: `ConstantInt`, `ConstantStruct`, or anything else. -/
inductive Constant where
  | int (v : Nat)
  | struct (ops : List Constant)
  | other

/-- `tryExtractCoverageHash`, given the initializer of the `__covrec_…u`
global for the function (`none` when `M.getNamedGlobal` finds no such global
or it has no initializer): if the initializer is a `ConstantStruct` with at
least 3 operands whose operand 2 is a `ConstantInt`, return its value. -/
def tryExtractCoverageHash (covRec : Option Constant) : Option Nat :=
  match covRec with
  | some (Constant.struct ops) =>
      if 2 < ops.length then
        match ops.getD 2 Constant.other with
        | Constant.int v => some v
        | _ => none
      else none
  | _ => none

/-- `computeFunctionHash`: prefer the structural hash from coverage mapping
metadata; fall back to the PGO name hash (`IndexedInstrProf::ComputeHash` of
the PGO function name, abstracted as `computeHash`). -/
def computeFunctionHash (computeHash : String → Nat) (funcName : String)
    (covRec : Option Constant) : Nat :=
  match tryExtractCoverageHash covRec with
  | some h => h
  | none => computeHash funcName

/-- The per-function facts `StaticProfileExporterPass::run` consumes: the
function (declaration flag, block frequencies, `__profd_` hint), its profile
name and hash, and the sink's verdict on its record (`Writer.addRecord`
succeeds or invokes the error callback). -/
structure FunctionInfo where
  name : String
  isDeclaration : Bool
  blocks : List Nat
  instrCounterCount : Option Nat
  hash : Nat
  submitOk : Bool
  deriving DecidableEq

/-- `NamedInstrProfRecord`: name, hash, counts. -/
structure ProfileRecord where
  name : String
  hash : Nat
  counts : List Nat
  deriving DecidableEq

/-- The driver's tallies `FunctionsProcessed` / `FunctionsSkipped`. -/
structure ExportStats where
  processed : Nat
  skipped : Nat
  deriving DecidableEq

/-- One iteration of the loop `for (Function &F : M)` in
`StaticProfileExporterPass::run`, acting on the stats and the list of
records held by the writer: declarations are passed over untallied; a failed
count synthesis increments `skipped`; otherwise the record is submitted —
on submission failure the error callback increments `skipped` and the record
is dropped — and `processed` is incremented unconditionally afterwards. -/
def runStep (st : ExportStats × List ProfileRecord) (f : FunctionInfo) :
    ExportStats × List ProfileRecord :=
  let (s, recs) := st
  if f.isDeclaration then (s, recs)
  else
    match convertBFIToCounts f.instrCounterCount f.blocks with
    | none => ({ s with skipped := s.skipped + 1 }, recs)
    | some counts =>
        let s1 := if f.submitOk then s else { s with skipped := s.skipped + 1 }
        let recs1 :=
          if f.submitOk then recs ++ [⟨f.name, f.hash, counts⟩] else recs
        ({ s1 with processed := s1.processed + 1 }, recs1)

/-- The whole per-function loop of `StaticProfileExporterPass::run`, over the
module's functions in declaration order, starting from zero tallies and an
empty writer. -/
def runExport (fs : List FunctionInfo) : ExportStats × List ProfileRecord :=
  fs.foldl runStep (⟨0, 0⟩, [])

/-! ## Basic facts about the embedding -/

theorem insertDesc_length (x : Nat) (l : List Nat) :
    (insertDesc x l).length = l.length + 1 := by
  induction l with
  | nil => rfl
  | cons y ys ih =>
      simp only [insertDesc]
      split <;> simp [ih]

theorem sortDesc_length (l : List Nat) : (sortDesc l).length = l.length := by
  induction l with
  | nil => rfl
  | cons x xs ih => simp [sortDesc, insertDesc_length, ih]

theorem mem_insertDesc {a x : Nat} {l : List Nat} :
    a ∈ insertDesc x l ↔ a = x ∨ a ∈ l := by
  induction l with
  | nil => simp [insertDesc]
  | cons y ys ih =>
      simp only [insertDesc]
      split
      · simp
      · simp only [List.mem_cons, ih]
        tauto

theorem insertDesc_pairwise {x : Nat} {l : List Nat}
    (h : l.Pairwise (fun a b => b ≤ a)) :
    (insertDesc x l).Pairwise (fun a b => b ≤ a) := by
  induction l with
  | nil => simp [insertDesc]
  | cons y ys ih =>
      rcases List.pairwise_cons.mp h with ⟨hy, hys⟩
      simp only [insertDesc]
      split
      · rename_i hlt
        refine List.pairwise_cons.mpr ⟨?_, h⟩
        intro b hb
        rcases List.mem_cons.mp hb with hb | hb
        · omega
        · exact le_trans (hy b hb) (le_of_lt hlt)
      · rename_i hnlt
        refine List.pairwise_cons.mpr ⟨?_, ih hys⟩
        intro b hb
        rcases mem_insertDesc.mp hb with hb | hb
        · omega
        · exact hy b hb

theorem sortDesc_pairwise (l : List Nat) :
    (sortDesc l).Pairwise (fun a b => b ≤ a) := by
  induction l with
  | nil => simp [sortDesc]
  | cons x xs ih => exact insertDesc_pairwise ih

/-- On the instrumented path with a nonzero entry frequency the result is the
pinned entry counter followed by the loop-assigned slots `1 … n-1`. -/
theorem convertBFIToCounts_some (blocks : List Nat) (n : Nat)
    (he : blocks.headD 0 ≠ 0) :
    convertBFIToCounts (some n) blocks =
      some (DefaultEntryCount ::
        (List.range' 1 (n - 1)).map
          (counterSlot (sortDesc (blocks.map (scaledCount (blocks.headD 0)))))) := by
  cases blocks with
  | nil => simp at he
  | cons b bs =>
      simp only [List.headD_cons] at he ⊢
      simp [convertBFIToCounts, he]

/-- On the uninstrumented path with a nonzero entry frequency the result is
one scaled count per block, in declaration order. -/
theorem convertBFIToCounts_none (blocks : List Nat)
    (he : blocks.headD 0 ≠ 0) :
    convertBFIToCounts none blocks =
      some (blocks.map (scaledCount (blocks.headD 0))) := by
  cases blocks with
  | nil => simp at he
  | cons b bs =>
      simp only [List.headD_cons] at he ⊢
      simp [convertBFIToCounts, he]

/-- Reading a loop-assigned slot `1 ≤ i < n` of the instrumented-path
vector yields `counterSlot sorted i`. -/
theorem getD_instr_counts (sorted : List Nat) (n i : Nat) (h1 : 1 ≤ i)
    (h2 : i < n) :
    ((DefaultEntryCount ::
        (List.range' 1 (n - 1)).map (counterSlot sorted)).getD i 0) =
      counterSlot sorted i := by
  obtain ⟨k, rfl⟩ : ∃ k, i = k + 1 := ⟨i - 1, by omega⟩
  have hk : k < ((List.range' 1 (n - 1)).map (counterSlot sorted)).length := by
    simp [List.length_map, List.length_range']
    omega
  rw [List.getD_cons_succ, List.getD_eq_getElem _ _ hk]
  rw [List.getElem_map]
  congr 1
  rw [List.getElem_range'_1]
  omega

/-! ## Claims -/

/-- C1 counterexample: with hint `N = 0` (and a single block of frequency 1)
the assignment loop `for (unsigned i = 1; i < 0; ++i)` runs zero times, so
the synthesized vector is `[DefaultEntryCount]` of length 1, not length 0 as
the claim requires for every `N` including `N = 0`. -/
theorem c1_counterexample :
    (convertBFIToCounts (some 0) [1]).map List.length ≠ some 0 := by decide

/-- C1 (amended): on the instrumented path with hint `N` and nonzero entry
frequency, the synthesized vector has length `max N 1` (equal to `N` for
every `N ≥ 1`; for `N = 0` it is the single pinned entry counter), and its
first element is always `DefaultEntryCount`. -/
theorem c1_hint_length_and_pin (blocks : List Nat) (n : Nat) (cs : List Nat)
    (he : blocks.headD 0 ≠ 0)
    (hc : convertBFIToCounts (some n) blocks = some cs) :
    cs.length = max n 1 ∧ cs.headD 0 = DefaultEntryCount := by
  rw [convertBFIToCounts_some blocks n he] at hc
  obtain rfl := (Option.some.injEq _ _).mp hc.symm
  refine ⟨?_, rfl⟩
  simp only [List.length_cons, List.length_map, List.length_range']
  omega

/-- C1 witness at `blocks = [1]`, `N = 0`. -/
theorem c1_witness :
    ([DefaultEntryCount] : List Nat).length = max 0 1 ∧
    ([DefaultEntryCount] : List Nat).headD 0 = DefaultEntryCount :=
  c1_hint_length_and_pin [1] 0 [DefaultEntryCount] (by decide) (by decide)

/-- C2 counterexample: the multiplication `DefaultEntryCount * freq` is
performed in `uint64_t` and wraps modulo `2^64`.  With entry frequency 1 and
a second block of frequency `2^63`, the code computes
`100 * 2^63 mod 2^64 = 0`, so `counts[1] = 0`, while the claim's exact floor
division would give `100 * 2^63`. -/
theorem c2_counterexample :
    convertBFIToCounts none [1, 2 ^ 63] = some [DefaultEntryCount, 0] ∧
    (0 : Nat) ≠ DefaultEntryCount * 2 ^ 63 / 1 := by
  constructor
  · decide
  · decide

/-- C2 (amended): on the uninstrumented path with nonzero entry frequency
`entryFreq`, the vector has one entry per basic block in declaration order
and `counts[i] = ((BASE_SCALE * freq(blocks[i])) mod 2^64) / entryFreq`
(`uint64_t` wraparound); this coincides with
`floor(BASE_SCALE * freq(blocks[i]) / entryFreq)` whenever the product does
not overflow. -/
theorem c2_per_block_counts (blocks cs : List Nat) (i : Nat)
    (he : blocks.headD 0 ≠ 0)
    (hc : convertBFIToCounts none blocks = some cs)
    (hi : i < blocks.length) :
    cs.length = blocks.length ∧
    cs.getD i 0 =
      DefaultEntryCount * blocks.getD i 0 % UINT64_MOD / blocks.headD 0 := by
  rw [convertBFIToCounts_none blocks he] at hc
  obtain rfl := (Option.some.injEq _ _).mp hc.symm
  refine ⟨by simp, ?_⟩
  have hi' : i < (blocks.map (scaledCount (blocks.headD 0))).length := by
    simpa using hi
  rw [List.getD_eq_getElem _ _ hi', List.getElem_map,
    List.getD_eq_getElem _ _ hi]
  rfl

/-- C2 witness at `blocks = [10, 5]`, `i = 1`. -/
theorem c2_witness :
    ([DefaultEntryCount, 50] : List Nat).length = ([10, 5] : List Nat).length ∧
    ([DefaultEntryCount, 50] : List Nat).getD 1 0 =
      DefaultEntryCount * ([10, 5] : List Nat).getD 1 0 % UINT64_MOD /
        ([10, 5] : List Nat).headD 0 :=
  c2_per_block_counts [10, 5] [DefaultEntryCount, 50] 1 (by decide) (by decide)
    (by decide)

/-- C3 counterexample: for blocks of frequencies `(10, 5)` and hint `N = 3`
the code yields `[100, 50, 33]` (slot 1 takes `sorted[1] = 50`, slot 2 is
the padding `100 / 3 = 33`), not the claimed `[100, 100, 50]`. -/
theorem c3_counterexample :
    convertBFIToCounts (some 3) [10, 5] ≠
      some [DefaultEntryCount, DefaultEntryCount, 50] := by decide

/-- C3 (amended): for a function with exactly two blocks of frequencies 10
(entry) and 5, hint `N = 3` and `BASE_SCALE = 100`, the synthesized count
vector is `[100, 50, 33]`. -/
theorem c3_two_block_scenario :
    convertBFIToCounts (some 3) [10, 5] = some [100, 50, 33] := by decide

/-- C4: on the instrumented path with hint `N ≤ len(blocks)` and nonzero
entry frequency, every slot in `counts[1..N)` is an element of the
descending-sorted list of per-block scaled frequencies, and the slots are
non-increasing: for all `1 ≤ i ≤ j < N`, `counts[j] ≤ counts[i]`. -/
theorem c4_sorted_slots (blocks : List Nat) (n : Nat) (cs : List Nat)
    (i j : Nat) (he : blocks.headD 0 ≠ 0) (hn : n ≤ blocks.length)
    (hc : convertBFIToCounts (some n) blocks = some cs)
    (h1 : 1 ≤ i) (hij : i ≤ j) (hj : j < n) :
    cs.getD i 0 ∈ sortDesc (blocks.map (scaledCount (blocks.headD 0))) ∧
    cs.getD j 0 ∈ sortDesc (blocks.map (scaledCount (blocks.headD 0))) ∧
    cs.getD j 0 ≤ cs.getD i 0 := by
  rw [convertBFIToCounts_some blocks n he] at hc
  obtain rfl := (Option.some.injEq _ _).mp hc.symm
  have hlen : (sortDesc (blocks.map (scaledCount (blocks.headD 0)))).length =
      blocks.length := by
    rw [sortDesc_length, List.length_map]
  have hgi := getD_instr_counts
    (sortDesc (blocks.map (scaledCount (blocks.headD 0)))) n i h1 (by omega)
  have hgj := getD_instr_counts
    (sortDesc (blocks.map (scaledCount (blocks.headD 0)))) n j (by omega)
    (by omega)
  have hilt : i < (sortDesc (blocks.map (scaledCount (blocks.headD 0)))).length := by
    omega
  have hjlt : j < (sortDesc (blocks.map (scaledCount (blocks.headD 0)))).length := by
    omega
  rw [hgi, hgj]
  unfold counterSlot
  rw [if_pos hilt, if_pos hjlt,
    List.getD_eq_getElem _ _ hilt, List.getD_eq_getElem _ _ hjlt]
  refine ⟨List.getElem_mem _, List.getElem_mem _, ?_⟩
  rcases Nat.lt_or_ge i j with hlt | hge
  · have hpw := List.pairwise_iff_get.mp
      (sortDesc_pairwise (blocks.map (scaledCount (blocks.headD 0))))
      ⟨i, hilt⟩ ⟨j, hjlt⟩ hlt
    simpa using hpw
  · have : i = j := by omega
    subst this
    exact le_refl _

/-- C4 witness at `blocks = [10, 5, 2]`, `N = 3`, `i = 1`, `j = 2`. -/
theorem c4_witness :
    ([100, 50, 20] : List Nat).getD 1 0 ∈
      sortDesc (([10, 5, 2] : List Nat).map
        (scaledCount (([10, 5, 2] : List Nat).headD 0))) ∧
    ([100, 50, 20] : List Nat).getD 2 0 ∈
      sortDesc (([10, 5, 2] : List Nat).map
        (scaledCount (([10, 5, 2] : List Nat).headD 0))) ∧
    ([100, 50, 20] : List Nat).getD 2 0 ≤ ([100, 50, 20] : List Nat).getD 1 0 :=
  c4_sorted_slots [10, 5, 2] 3 [100, 50, 20] 1 2 (by decide) (by decide)
    (by decide) (by decide) (by decide) (by decide)

/-- C5 counterexample: with a single block of frequency 1 and hint `N = 14`,
the padding slots hold `100 / (i + 1)`, and slots 12 and 13 (both at or
beyond the block count 1) are `100 / 13 = 7` and `100 / 14 = 7`: equal, so
the padding values are not strictly decreasing as `i` grows. -/
theorem c5_counterexample :
    convertBFIToCounts (some 14) [1] =
      some [100, 50, 33, 25, 20, 16, 14, 12, 11, 10, 9, 8, 7, 7] ∧
    ¬ (([100, 50, 33, 25, 20, 16, 14, 12, 11, 10, 9, 8, 7, 7] : List Nat).getD 13 0 <
        ([100, 50, 33, 25, 20, 16, 14, 12, 11, 10, 9, 8, 7, 7] : List Nat).getD 12 0) := by
  constructor
  · decide
  · decide

/-- C5 (amended): on the instrumented path with hint `N > len(blocks)` and
nonzero entry frequency, every slot `i` with `len(blocks) ≤ i < N` holds
`BASE_SCALE / (i + 1)`, and these padding values are non-increasing (weakly
decreasing) as `i` grows: for `len(blocks) ≤ i ≤ j < N`,
`counts[j] ≤ counts[i]`. -/
theorem c5_padding_decay (blocks : List Nat) (n : Nat) (cs : List Nat)
    (i j : Nat) (he : blocks.headD 0 ≠ 0)
    (hc : convertBFIToCounts (some n) blocks = some cs)
    (hi : blocks.length ≤ i) (hij : i ≤ j) (hj : j < n) :
    cs.getD i 0 = DefaultEntryCount / (i + 1) ∧
    cs.getD j 0 = DefaultEntryCount / (j + 1) ∧
    cs.getD j 0 ≤ cs.getD i 0 := by
  have hbne : blocks ≠ [] := by
    intro h
    rw [h] at he
    exact he rfl
  have hbpos : 1 ≤ blocks.length := List.length_pos.mpr hbne
  rw [convertBFIToCounts_some blocks n he] at hc
  obtain rfl := (Option.some.injEq _ _).mp hc.symm
  have hlen : (sortDesc (blocks.map (scaledCount (blocks.headD 0)))).length =
      blocks.length := by
    rw [sortDesc_length, List.length_map]
  have hgi := getD_instr_counts
    (sortDesc (blocks.map (scaledCount (blocks.headD 0)))) n i (by omega)
    (by omega)
  have hgj := getD_instr_counts
    (sortDesc (blocks.map (scaledCount (blocks.headD 0)))) n j (by omega)
    (by omega)
  rw [hgi, hgj]
  unfold counterSlot
  rw [if_neg (by omega), if_neg (by omega)]
  refine ⟨rfl, rfl, ?_⟩
  exact Nat.div_le_div_left (by omega) (by omega)

/-- C5 witness at `blocks = [1]`, `N = 4`, `i = 1`, `j = 2`. -/
theorem c5_witness :
    ([100, 50, 33, 25] : List Nat).getD 1 0 = DefaultEntryCount / (1 + 1) ∧
    ([100, 50, 33, 25] : List Nat).getD 2 0 = DefaultEntryCount / (2 + 1) ∧
    ([100, 50, 33, 25] : List Nat).getD 2 0 ≤
      ([100, 50, 33, 25] : List Nat).getD 1 0 :=
  c5_padding_decay [1] 4 [100, 50, 33, 25] 1 2 (by decide) (by decide)
    (by decide) (by decide) (by decide)

/-- C6: for a function with a body whose entry-block frequency is 0, count
synthesis fails, the driver adds no profile record for it and increments the
skipped tally by exactly 1, and the per-function loop continues with the
remaining functions from that state rather than aborting. -/
theorem c6_zero_entry_skipped (f : FunctionInfo) (s : ExportStats)
    (recs : List ProfileRecord) (rest : List FunctionInfo)
    (hdecl : f.isDeclaration = false) (hne : f.blocks ≠ [])
    (hz : f.blocks.headD 0 = 0) :
    convertBFIToCounts f.instrCounterCount f.blocks = none ∧
    runStep (s, recs) f = ({ s with skipped := s.skipped + 1 }, recs) ∧
    List.foldl runStep (s, recs) (f :: rest) =
      List.foldl runStep ({ s with skipped := s.skipped + 1 }, recs) rest := by
  have hconv : convertBFIToCounts f.instrCounterCount f.blocks = none := by
    simp only [convertBFIToCounts, hz]
    simp
  have hstep : runStep (s, recs) f = ({ s with skipped := s.skipped + 1 }, recs) := by
    simp [runStep, hdecl, hconv]
  exact ⟨hconv, hstep, by rw [List.foldl_cons, hstep]⟩

/-- C6 witness: a single-function module whose one function has a body with
one block of frequency 0. -/
theorem c6_witness :
    convertBFIToCounts none [0] = none ∧
    runStep (⟨0, 0⟩, []) ⟨"f", false, [0], none, 7, true⟩ = (⟨0, 1⟩, []) ∧
    List.foldl runStep (⟨0, 0⟩, []) [⟨"f", false, [0], none, 7, true⟩] =
      List.foldl runStep (⟨0, 1⟩, []) [] :=
  c6_zero_entry_skipped ⟨"f", false, [0], none, 7, true⟩ ⟨0, 0⟩ [] [] rfl
    (by decide) rfl

/-- C7: the code does not keep the two tallies mutually exclusive.  For a
function whose record submission fails, the `addRecord` error callback
increments `FunctionsSkipped` and the unconditional `++FunctionsProcessed`
that follows still runs, so the single function ends with `processed = 1`
and `skipped = 1` while its record is dropped. -/
theorem c7_submit_failure_double_count :
    runExport [⟨"f", false, [1], none, 7, false⟩] = (⟨1, 1⟩, []) := by decide

/-- C8: whenever the coverage-metadata lookup yields a structural hash (the
`__covrec_…u` initializer is a struct with at least 3 operands whose operand
2 is a `ConstantInt` with value `v`), identity resolution returns `v`; and
when the lookup yields nothing (no such global), it returns the
deterministic hash of the function's profiling name. -/
theorem c8_structural_hash_wins (computeHash : String → Nat)
    (funcName : String) (ops : List Constant) (v : Nat)
    (hlen : 2 < ops.length)
    (hv : ops.getD 2 Constant.other = Constant.int v) :
    computeFunctionHash computeHash funcName (some (Constant.struct ops)) = v ∧
    computeFunctionHash computeHash funcName none = computeHash funcName := by
  constructor
  · have hv2 : ops[2] = Constant.int v := by
      rw [← List.getD_eq_getElem ops Constant.other hlen]
      exact hv
    simp [computeFunctionHash, tryExtractCoverageHash, hlen, hv2]
  · rfl

/-- C8 witness: a three-field coverage record with structural hash 42. -/
theorem c8_witness :
    computeFunctionHash String.length "f"
      (some (Constant.struct [Constant.int 1, Constant.int 2, Constant.int 42])) = 42 ∧
    computeFunctionHash String.length "f" none = String.length "f" :=
  c8_structural_hash_wins String.length "f"
    [Constant.int 1, Constant.int 2, Constant.int 42] 42 (by decide) rfl

/-- C9 counterexample: on the uninstrumented path the entry count itself is
computed as `(100 * entryFreq mod 2^64) / entryFreq`.  With
`entryFreq = 2^63` the product wraps to 0 and `counts[0] = 0`, not
`BASE_SCALE`. -/
theorem c9_counterexample :
    convertBFIToCounts none [2 ^ 63] = some [0] ∧ (0 : Nat) ≠ DefaultEntryCount := by
  constructor
  · decide
  · decide

/-- C9 (amended): for every function with nonzero entry frequency such that
`BASE_SCALE * entryFreq` does not overflow `uint64_t`, the first element of
the synthesized vector equals `BASE_SCALE` on both paths: pinned on the
instrumented path, and `floor(BASE_SCALE * entryFreq / entryFreq) =
BASE_SCALE` for the entry block (the first block in declaration order) on
the uninstrumented path. -/
theorem c9_entry_pinned_both_paths (blocks : List Nat) (hint : Option Nat)
    (cs : List Nat) (he : blocks.headD 0 ≠ 0)
    (hov : DefaultEntryCount * blocks.headD 0 < UINT64_MOD)
    (hc : convertBFIToCounts hint blocks = some cs) :
    cs.headD 0 = DefaultEntryCount := by
  cases hint with
  | some n =>
      rw [convertBFIToCounts_some blocks n he] at hc
      obtain rfl := (Option.some.injEq _ _).mp hc.symm
      rfl
  | none =>
      rw [convertBFIToCounts_none blocks he] at hc
      obtain rfl := (Option.some.injEq _ _).mp hc.symm
      cases blocks with
      | nil => simp at he
      | cons b bs =>
          simp only [List.headD_cons] at he hov ⊢
          simp only [List.map_cons, List.headD_cons]
          unfold scaledCount
          rw [Nat.mod_eq_of_lt hov, Nat.mul_div_cancel _ (Nat.pos_of_ne_zero he)]

/-- C9 witness at `blocks = [5]` on the uninstrumented path. -/
theorem c9_witness : ([100] : List Nat).headD 0 = DefaultEntryCount :=
  c9_entry_pinned_both_paths [5] none [100] (by decide) (by decide) (by decide)

/-- C10: for every function with a body (a nonempty block list) and nonzero
entry frequency, count synthesis succeeds and produces a nonempty vector on
either path, so the empty-vector failure branch is unreachable. -/
theorem c10_nonempty_success (blocks : List Nat) (hint : Option Nat)
    (hne : blocks ≠ []) (he : blocks.headD 0 ≠ 0) :
    (convertBFIToCounts hint blocks).isSome = true ∧
    ((convertBFIToCounts hint blocks).getD []).isEmpty = false := by
  cases hint with
  | some n =>
      rw [convertBFIToCounts_some blocks n he]
      simp
  | none =>
      rw [convertBFIToCounts_none blocks he]
      cases blocks with
      | nil => exact absurd rfl hne
      | cons b bs => simp

/-- C10 witness at `blocks = [1]` with hint `N = 0` (the hardest case: even
there the pinned entry counter makes the vector nonempty). -/
theorem c10_witness :
    (convertBFIToCounts (some 0) [1]).isSome = true ∧
    ((convertBFIToCounts (some 0) [1]).getD []).isEmpty = false :=
  c10_nonempty_success [1] (some 0) (by decide) (by decide)
